import Mathlib

/-!
Shallow embedding of `src/worker/worker.go` (package `worker` of
janhaitjema/sqs-worker-go) and proofs about its polling, dispatch and
acknowledgment behaviour.

The Go code is embedded as follows:
* `Message` mirrors the fields of `sqs.Message` that the worker touches
  (`ReceiptHandle` is the acknowledgment token).
* `GoError` models Go dynamic error values as seen by the type assertion
  `err.(InvalidMessageError)` in `handleMessage`: a value of the exact type
  `InvalidMessageError`, a pointer `*InvalidMessageError`, an error wrapping
  another error, or any other error value.
* `handleMessage` is a direct translation of the Go function of the same
  name: it returns the list of observable calls it performs (handler
  completion, log lines, the `DeleteMessage` call) together with the `error`
  it returns to its caller.
* `workerEvents` is the body of the goroutine spawned per message in `run`.
* `step` is a small-step semantics of `Service.Start`'s poll loop together
  with the per-batch dispatch of `run`: worker interleaving is modelled by a
  scheduler choice picking which pending worker emits its next event.
  Receive outcomes are supplied by a script (the transport is external).
* `NewService` translates the constructor, with queue-URL resolution
  supplied as an oracle.
-/

namespace SqsWorker

/-- The part of `sqs.Message` the worker uses: `ReceiptHandle` is the
per-delivery acknowledgment token passed to `DeleteMessage`. -/
structure Message where
  messageId : String
  body : String
  attributes : List (String × String)
  receiptHandle : String
deriving Repr, DecidableEq

/-- Go dynamic error values, as distinguished by `handleMessage`'s type
assertion. `invalidMessage` is a value of the exact type
`InvalidMessageError`; `ptrInvalidMessage` is a `*InvalidMessageError`
pointer; `wrapped` is an error produced by wrapping another error (e.g.
`fmt.Errorf` with `%w`); `other` is any other error value. -/
inductive GoError where
  | invalidMessage (sqsMessage logMessage : String)
  | ptrInvalidMessage (sqsMessage logMessage : String)
  | wrapped (msg : String) (inner : GoError)
  | other (msg : String)
deriving Repr, DecidableEq

/-- `Error()` of the modelled error values. `InvalidMessageError.Error`
formats as in the Go source; a wrapped error prepends its own text. -/
def GoError.errorString : GoError → String
  | .invalidMessage s l => "[Invalid Message: " ++ s ++ "] " ++ l
  | .ptrInvalidMessage s l => "[Invalid Message: " ++ s ++ "] " ++ l
  | .wrapped msg inner => msg ++ ": " ++ inner.errorString
  | .other msg => msg

/-- The Go type assertion `err.(InvalidMessageError)` in `handleMessage`:
it succeeds only when the dynamic type is exactly the value type
`InvalidMessageError` — a `*InvalidMessageError` pointer or an error merely
wrapping an `InvalidMessageError` does not match. -/
def isInvalidMessageError : GoError → Bool
  | .invalidMessage _ _ => true
  | _ => false

/-- Observable calls performed by the worker code. -/
inductive Event where
  | receiveCall (maxMessages waitSeconds : Int)
  | handlerDone (m : Message) (err : Option GoError)
  | logLine (s : String)
  | deleteCall (receiptHandle : String)
  | getQueueUrlCall (queueName : String)
deriving Repr, DecidableEq

/-- Recognizer for `deleteCall` events. -/
def Event.isDelete : Event → Bool
  | .deleteCall _ => true
  | _ => false

/-- Recognizer for `receiveCall` events. -/
def Event.isReceive : Event → Bool
  | .receiveCall _ _ => true
  | _ => false

/-- The environment of one dispatch: the user handler (a Go handler returns
`error`, i.e. `Option GoError` with `none` for `nil`) and the transport's
response to a `DeleteMessage` call for each message. -/
structure Env where
  handler : Message → Option GoError
  deleteResult : Message → Option GoError
  maxNumberOfMessage : Int
  waitTimeSecond : Int

/-- Translation of `handleMessage(s, m, h)` from `src/worker/worker.go`:
run the handler; on an error of exact type `InvalidMessageError`, log it and
fall through to the delete; on any other non-nil error, return it without
deleting; otherwise delete and return the delete call's error (nil on
success). The first component is the sequence of observable calls, the
second the returned `error`. -/
def handleMessage (env : Env) (m : Message) : List Event × Option GoError :=
  let err := env.handler m
  match err with
  | some e =>
    if isInvalidMessageError e then
      ([.handlerDone m err, .logLine e.errorString, .deleteCall m.receiptHandle],
        env.deleteResult m)
    else
      ([.handlerDone m err], some e)
  | none =>
    ([.handlerDone m err, .deleteCall m.receiptHandle], env.deleteResult m)

/-- The body of the goroutine spawned per message in `run`: call
`handleMessage` and log the returned error when it is non-nil. The error is
consumed here; `run` returns nothing to `Start`. -/
def workerEvents (env : Env) (m : Message) : List Event :=
  let r := handleMessage env m
  r.1 ++ (match r.2 with
    | some e => [Event.logLine e.errorString]
    | none => [])

/-- Whether this delivery ended acknowledged. Modelled from the spec:
the per-delivery state machine of spec section 4.4 — `Acknowledged` iff the
delete call was issued and succeeded — evaluated over the code's trace. -/
def acknowledged (env : Env) (m : Message) : Bool :=
  (workerEvents env m).any (fun ev => ev == Event.deleteCall m.receiptHandle)
    && (env.deleteResult m).isNone

/-- Outcome of one `ReceiveMessageWithContext` call, scripted: either a
transport error or a (possibly empty) batch of messages. -/
inductive ReceiveResult where
  | err (e : GoError)
  | msgs (l : List Message)
deriving Repr, DecidableEq

/-- Where control of `Start` currently is: at the top of the poll loop;
inside `run` with, per spawned worker, its message and the events it has yet
to emit; or returned. -/
inductive Phase where
  | polling
  | dispatching (pending : List (Message × List Event))
  | stopped
deriving Repr, DecidableEq

/-- State of a started service: the cancellation token (`AWSContext`), the
control phase, the `Running` wait-group counter, the script of remaining
receive outcomes, and the trace of observable calls so far. -/
structure SState where
  ctxDone : Bool
  phase : Phase
  running : Nat
  script : List ReceiveResult
  trace : List Event
deriving Repr, DecidableEq

/-- Scheduler choices: run one iteration of `Start`'s loop, let pending
worker `i` emit its next event, return from `run` when every worker is done
(`wg.Wait`), or signal cancellation (the first action of `Stop`). -/
inductive Choice where
  | loopIter
  | workerStep (i : Nat)
  | joinBatch
  | cancelSignal
deriving Repr, DecidableEq

/-- Small-step semantics of `Service.Start` (with `run` inlined as the
`dispatching` phase). `loopIter` follows the Go `select`: the `Done` case
when the context is cancelled, otherwise the receive; a receive error is
logged and the loop continues; an empty batch is skipped; a non-empty batch
of k messages spawns k workers. `none` means the choice is not enabled
(e.g. `joinBatch` while a worker still has events: `wg.Wait` blocks). -/
def step (env : Env) (c : Choice) (s : SState) : Option SState :=
  match c with
  | .cancelSignal => some { s with ctxDone := true }
  | .loopIter =>
    match s.phase with
    | .polling =>
      if s.ctxDone then
        some { s with
          phase := .stopped
          running := s.running - 1
          trace := s.trace ++ [.logLine "SQS listener stopped."] }
      else
        match s.script with
        | [] => none
        | r :: rest =>
          match r with
          | .err e =>
            some { s with
              script := rest
              trace := s.trace ++
                [.receiveCall env.maxNumberOfMessage env.waitTimeSecond,
                 .logLine e.errorString] }
          | .msgs l =>
            if l.isEmpty then
              some { s with
                script := rest
                trace := s.trace ++
                  [.receiveCall env.maxNumberOfMessage env.waitTimeSecond] }
            else
              some { s with
                script := rest
                phase := .dispatching (l.map (fun m => (m, workerEvents env m)))
                trace := s.trace ++
                  [.receiveCall env.maxNumberOfMessage env.waitTimeSecond] }
    | _ => none
  | .workerStep i =>
    match s.phase with
    | .dispatching pending =>
      match pending[i]? with
      | some (m, e :: rest) =>
        some { s with
          phase := .dispatching (pending.set i (m, rest))
          trace := s.trace ++ [e] }
      | _ => none
    | _ => none
  | .joinBatch =>
    match s.phase with
    | .dispatching pending =>
      if pending.all (fun p => p.2.isEmpty) then
        some { s with phase := .polling }
      else
        none
    | _ => none

/-- State at entry of `Start`: `s.Running.Add(1)` has run (counter 1), the
context is not yet cancelled, control is at the top of the loop. -/
def startState (script : List ReceiveResult) : SState :=
  { ctxDone := false, phase := .polling, running := 1, script := script, trace := [] }

/-- Run a sequence of scheduler choices. -/
def steps (env : Env) (cs : List Choice) (s : SState) : Option SState :=
  match cs with
  | [] => some s
  | c :: rest =>
    match step env c s with
    | some s' => steps env rest s'
    | none => none

/-- The exported package variable `MaxNumberOfMessage`, initialised to 10.
It is mutable in Go and read at every receive call. -/
def MaxNumberOfMessage : Int := 10

/-- The exported package variable `WaitTimeSecond`, initialised to 20. -/
def WaitTimeSecond : Int := 20

/-- The fields of the constructed `Service` value relevant here: the
resolved queue URL, the fresh (uncancelled) context, and the zero
`Running` wait group. -/
structure Service0 where
  jobSQSURL : String
  ctxDone : Bool
  running : Nat
deriving Repr, DecidableEq

/-- Translation of `NewService(n)`: call `GetQueueUrl` once on the queue
name (resolution modelled as an oracle); on error, log and return
`(nil, err)`; on success, build a context and the `Service` holding the
resolved URL. The first component is the list of calls performed. -/
def NewService (resolve : String → Except GoError String) (n : String) :
    List Event × Except GoError Service0 :=
  match resolve n with
  | .error e =>
    ([Event.getQueueUrlCall n, Event.logLine "Can not get the SQS queue"],
      Except.error e)
  | .ok url =>
    ([Event.getQueueUrlCall n],
      Except.ok { jobSQSURL := url, ctxDone := false, running := 0 })

/-- Recognizer for `getQueueUrlCall` events. -/
def Event.isGetQueueUrl : Event → Bool
  | .getQueueUrlCall _ => true
  | _ => false

/-! ### Concrete fixtures used by witnesses and counterexamples -/

/-- A sample delivery. -/
def msgA : Message :=
  { messageId := "id-a", body := "payload-a", attributes := [("k", "v")],
    receiptHandle := "rh-a" }

/-- A second sample delivery. -/
def msgB : Message :=
  { messageId := "id-b", body := "payload-b", attributes := [],
    receiptHandle := "rh-b" }

/-- Environment with the default configuration values. -/
def mkEnv (h d : Message → Option GoError) : Env :=
  { handler := h, deleteResult := d,
    maxNumberOfMessage := MaxNumberOfMessage, waitTimeSecond := WaitTimeSecond }

/-- Handler succeeds, deletes succeed. -/
def envOk : Env := mkEnv (fun _ => none) (fun _ => none)

/-- Handler fails with a generic (transient) error. -/
def envTrans : Env := mkEnv (fun _ => some (.other "boom")) (fun _ => none)

/-- Handler fails with an `InvalidMessageError` value (permanent). -/
def envInv : Env :=
  mkEnv (fun _ => some (.invalidMessage "id-a" "malformed body")) (fun _ => none)

/-- Handler succeeds but the delete call fails. -/
def envDelFail : Env :=
  mkEnv (fun _ => none) (fun _ => some (.other "delete failed"))

/-- Environment after the embedding application set the exported variable
`MaxNumberOfMessage` to 11 (the code never validates the range). -/
def envWide : Env :=
  { handler := fun _ => none, deleteResult := fun _ => none,
    maxNumberOfMessage := 11, waitTimeSecond := 20 }

/-- Invariant of every state reachable from `Start`'s entry: each receive
call recorded in the trace used the configured values; workers pending in a
dispatch never hold a receive event; and the `Running` counter is 1 until
the poll loop returns and 0 afterwards. -/
def GoodState (env : Env) (s : SState) : Prop :=
  (∀ a b, Event.receiveCall a b ∈ s.trace →
    a = env.maxNumberOfMessage ∧ b = env.waitTimeSecond)
  ∧ (∀ pending, s.phase = .dispatching pending →
      ∀ p ∈ pending, ∀ a b, Event.receiveCall a b ∉ p.2)
  ∧ s.running = (if s.phase = .stopped then 0 else 1)

/-- The state after `envWide`'s poll loop does one receive that returns an
empty batch. -/
def wideStateOne : SState :=
  { ctxDone := false, phase := .polling, running := 1, script := [],
    trace := [Event.receiveCall 11 20] }

/-- The state after `envOk`'s poll loop receives the one-message batch
`[msgA]` and dispatches it. -/
def dispatchStateOne : SState :=
  { ctxDone := false,
    phase := .dispatching [(msgA, workerEvents envOk msgA)],
    running := 1, script := [],
    trace := [Event.receiveCall MaxNumberOfMessage WaitTimeSecond] }

/-- The state after `envOk`'s poll loop receives the two-message batch
`[msgA, msgB]` and dispatches it. -/
def dispatchStateTwo : SState :=
  { ctxDone := false,
    phase := .dispatching ([msgA, msgB].map (fun m => (m, workerEvents envOk m))),
    running := 1, script := [],
    trace := [Event.receiveCall MaxNumberOfMessage WaitTimeSecond] }

/-- The state after `envOk`'s poll loop does one receive that returns an
empty batch. -/
def okStateOne : SState :=
  { ctxDone := false, phase := .polling, running := 1, script := [],
    trace := [Event.receiveCall MaxNumberOfMessage WaitTimeSecond] }

/-- A queue-URL resolution oracle that always succeeds. -/
def resolveOk : String → Except GoError String :=
  fun n => Except.ok ("https://sqs.example/" ++ n)

/-! ### Shape lemmas for one worker's trace -/

/-- Worker trace when the handler returns nil: handler completion, one
delete call, then a log line iff the delete failed. -/
lemma workerEvents_success (env : Env) (m : Message)
    (hh : env.handler m = none) :
    workerEvents env m =
      [Event.handlerDone m none, Event.deleteCall m.receiptHandle] ++
        (match env.deleteResult m with
          | some de => [Event.logLine de.errorString]
          | none => []) := by
  simp [workerEvents, handleMessage, hh]

/-- Worker trace when the handler returns a value of the exact type
`InvalidMessageError`: handler completion, the permanent-failure log, one
delete call, then a log line iff the delete failed. -/
lemma workerEvents_invalid (env : Env) (m : Message) (e : GoError)
    (hh : env.handler m = some e) (he : isInvalidMessageError e = true) :
    workerEvents env m =
      [Event.handlerDone m (some e), Event.logLine e.errorString,
       Event.deleteCall m.receiptHandle] ++
        (match env.deleteResult m with
          | some de => [Event.logLine de.errorString]
          | none => []) := by
  simp [workerEvents, handleMessage, hh, he]

/-- Worker trace when the handler returns any other non-nil error: handler
completion and the transient-failure log only. -/
lemma workerEvents_transient (env : Env) (m : Message) (e : GoError)
    (hh : env.handler m = some e) (he : isInvalidMessageError e = false) :
    workerEvents env m =
      [Event.handlerDone m (some e), Event.logLine e.errorString] := by
  simp [workerEvents, handleMessage, hh, he]

/-! ### C1: transient failures are not acknowledged -/

/-- C1: for a message whose handler returns a non-nil error that is not an
`InvalidMessageError` (a TransientFailure), the worker issues zero delete
calls for that delivery, the cause is logged, the error travels no further
than the worker goroutine, and the delivery ends unacknowledged (left in the
queue for redelivery). -/
theorem transient_failure_not_deleted (env : Env) (m : Message) (e : GoError)
    (hh : env.handler m = some e) (he : isInvalidMessageError e = false) :
    (∀ r, Event.deleteCall r ∉ workerEvents env m)
    ∧ Event.logLine e.errorString ∈ workerEvents env m
    ∧ (handleMessage env m).2 = some e
    ∧ acknowledged env m = false := by
  have hw := workerEvents_transient env m e hh he
  refine ⟨fun r => ?_, ?_, ?_, ?_⟩
  · rw [hw]; simp
  · rw [hw]; simp
  · simp [handleMessage, hh, he]
  · simp [acknowledged, hw]

/-- Witness for C1: a concrete generic handler error on a concrete
message. -/
theorem transient_failure_not_deleted_witness :
    envTrans.handler msgA = some (GoError.other "boom")
    ∧ isInvalidMessageError (GoError.other "boom") = false
    ∧ (∀ r, Event.deleteCall r ∉ workerEvents envTrans msgA)
    ∧ acknowledged envTrans msgA = false :=
  ⟨rfl, rfl,
    (transient_failure_not_deleted envTrans msgA (GoError.other "boom") rfl rfl).1,
    (transient_failure_not_deleted envTrans msgA (GoError.other "boom") rfl rfl).2.2.2⟩

/-! ### C2: success and permanent failure are acknowledged exactly once -/

/-- C2: for a message whose handler returns nil (Success) or an
`InvalidMessageError` value (PermanentFailure), exactly one delete call is
issued and it carries that message's receipt handle; a permanent failure is
logged; and no handler error reaches the batch caller: completing the batch
merely flips the service back to the `polling` phase, with no error
channel. -/
theorem success_or_permanent_deleted_once (env : Env) (m : Message)
    (h : env.handler m = none ∨
      ∃ e, env.handler m = some e ∧ isInvalidMessageError e = true) :
    (workerEvents env m).filter Event.isDelete = [Event.deleteCall m.receiptHandle]
    ∧ (∀ e, env.handler m = some e → Event.logLine e.errorString ∈ workerEvents env m)
    ∧ ∀ s pending, s.phase = .dispatching pending →
        pending.all (fun p => p.2.isEmpty) = true →
        step env .joinBatch s = some { s with phase := .polling } := by
  have hjoin : ∀ s : SState, ∀ pending, s.phase = .dispatching pending →
      pending.all (fun p => p.2.isEmpty) = true →
      step env .joinBatch s = some { s with phase := .polling } := by
    intro s pending hp hall
    rcases s with ⟨cd, ph, rn, sc, tr⟩
    simp only at hp
    subst hp
    simp [step, hall]
  rcases h with hh | ⟨e, hh, he⟩
  · refine ⟨?_, ?_, hjoin⟩
    · rw [workerEvents_success env m hh]
      rcases hd : env.deleteResult m with _ | de <;> simp [hd, Event.isDelete]
    · intro e he'
      rw [hh] at he'
      exact absurd he' (by simp)
  · refine ⟨?_, ?_, hjoin⟩
    · rw [workerEvents_invalid env m e hh he]
      rcases hd : env.deleteResult m with _ | de <;> simp [hd, Event.isDelete]
    · intro e' he'
      rw [hh] at he'
      cases he'
      rw [workerEvents_invalid env m e hh he]
      rcases hd : env.deleteResult m with _ | de <;> simp [hd]

/-- Witness for C2: a concrete successful handler run. -/
theorem success_or_permanent_deleted_once_witness :
    envOk.handler msgA = none
    ∧ (workerEvents envOk msgA).filter Event.isDelete =
        [Event.deleteCall msgA.receiptHandle] :=
  ⟨rfl, (success_or_permanent_deleted_once envOk msgA (Or.inl rfl)).1⟩

/-! ### C3: at most one acknowledgment, never before the handler returns -/

/-- C3: the worker's trace for a delivery starts with the completion of the
handler invocation, and the remainder contains at most one delete call — so
the delete is issued at most once and never before the handler has
returned. -/
theorem ack_at_most_once_after_handler (env : Env) (m : Message) :
    ∃ tail, workerEvents env m = Event.handlerDone m (env.handler m) :: tail
      ∧ (tail.filter Event.isDelete).length ≤ 1 := by
  rcases hh : env.handler m with _ | e
  · rcases hd : env.deleteResult m with _ | de
    · refine ⟨[Event.deleteCall m.receiptHandle], ?_, by simp [Event.isDelete]⟩
      simp [workerEvents, handleMessage, hh, hd]
    · refine ⟨[Event.deleteCall m.receiptHandle, Event.logLine de.errorString],
        ?_, by simp [Event.isDelete]⟩
      simp [workerEvents, handleMessage, hh, hd]
  · cases hi : isInvalidMessageError e
    · refine ⟨[Event.logLine e.errorString], ?_, by simp [Event.isDelete]⟩
      simp [workerEvents, handleMessage, hh, hi]
    · rcases hd : env.deleteResult m with _ | de
      · refine ⟨[Event.logLine e.errorString, Event.deleteCall m.receiptHandle],
          ?_, by simp [Event.isDelete]⟩
        simp [workerEvents, handleMessage, hh, hi, hd]
      · refine ⟨[Event.logLine e.errorString, Event.deleteCall m.receiptHandle,
          Event.logLine de.errorString], ?_, by simp [Event.isDelete]⟩
        simp [workerEvents, handleMessage, hh, hi, hd]

/-! ### C8: delete failures are logged and swallowed -/

/-- C8: when the delete call fails after a Success or PermanentFailure
outcome, `handleMessage` returns the delete error only to its worker
goroutine, whose entire reaction is one final log line; the delete call was
issued but the delivery ends unacknowledged; and nothing is surfaced beyond
the worker: the batch join still just returns control to the poll loop. -/
theorem delete_failure_logged_not_surfaced (env : Env) (m : Message) (de : GoError)
    (hd : env.deleteResult m = some de)
    (h : env.handler m = none ∨
      ∃ e, env.handler m = some e ∧ isInvalidMessageError e = true) :
    (handleMessage env m).2 = some de
    ∧ workerEvents env m = (handleMessage env m).1 ++ [Event.logLine de.errorString]
    ∧ Event.deleteCall m.receiptHandle ∈ workerEvents env m
    ∧ acknowledged env m = false
    ∧ ∀ s pending, s.phase = .dispatching pending →
        pending.all (fun p => p.2.isEmpty) = true →
        step env .joinBatch s = some { s with phase := .polling } := by
  have hjoin : ∀ s : SState, ∀ pending, s.phase = .dispatching pending →
      pending.all (fun p => p.2.isEmpty) = true →
      step env .joinBatch s = some { s with phase := .polling } := by
    intro s pending hp hall
    rcases s with ⟨cd, ph, rn, sc, tr⟩
    simp only at hp
    subst hp
    simp [step, hall]
  have hack : acknowledged env m = false := by simp [acknowledged, hd]
  rcases h with hh | ⟨e, hh, he⟩
  · exact ⟨by simp [handleMessage, hh, hd], by simp [workerEvents, handleMessage, hh, hd],
      by rw [workerEvents_success env m hh]; simp, hack, hjoin⟩
  · exact ⟨by simp [handleMessage, hh, he, hd],
      by simp [workerEvents, handleMessage, hh, he, hd],
      by rw [workerEvents_invalid env m e hh he]; simp, hack, hjoin⟩

/-- Witness for C8: a concrete failing delete after a successful handler
run. -/
theorem delete_failure_logged_not_surfaced_witness :
    envDelFail.deleteResult msgA = some (GoError.other "delete failed")
    ∧ envDelFail.handler msgA = none
    ∧ (handleMessage envDelFail msgA).2 = some (GoError.other "delete failed")
    ∧ acknowledged envDelFail msgA = false :=
  ⟨rfl, rfl,
    (delete_failure_logged_not_surfaced envDelFail msgA (GoError.other "delete failed")
      rfl (Or.inl rfl)).1,
    (delete_failure_logged_not_surfaced envDelFail msgA (GoError.other "delete failed")
      rfl (Or.inl rfl)).2.2.2.1⟩

/-! ### C10: classification is an exact dynamic-type test -/

/-- C10: a handler error counts as a permanent failure only when its
dynamic type is exactly the value type `InvalidMessageError`; a
`*InvalidMessageError` pointer or a wrapping error never matches, and any
non-matching non-nil error gets no delete call — the error is handed back to
the worker, which logs it. -/
theorem invalid_message_exact_type (env : Env) (m : Message) (e : GoError)
    (hh : env.handler m = some e) :
    (isInvalidMessageError e = true ↔ ∃ a b, e = GoError.invalidMessage a b)
    ∧ (∀ a b, isInvalidMessageError (GoError.ptrInvalidMessage a b) = false)
    ∧ (∀ w i, isInvalidMessageError (GoError.wrapped w i) = false)
    ∧ (isInvalidMessageError e = false →
        (∀ r, Event.deleteCall r ∉ workerEvents env m)
        ∧ (handleMessage env m).2 = some e
        ∧ Event.logLine e.errorString ∈ workerEvents env m) := by
  refine ⟨?_, by simp [isInvalidMessageError], by simp [isInvalidMessageError], ?_⟩
  · cases e <;> simp [isInvalidMessageError]
  · intro he
    have hw := workerEvents_transient env m e hh he
    exact ⟨fun r => by rw [hw]; simp, by simp [handleMessage, hh, he],
      by rw [hw]; simp⟩

/-! ### Reachability invariant -/

/-- A worker's trace never contains a receive call: only the poll loop
issues receives. -/
lemma workerEvents_no_receive (env : Env) (m : Message) (a b : Int) :
    Event.receiveCall a b ∉ workerEvents env m := by
  rcases hh : env.handler m with _ | e
  · rw [workerEvents_success env m hh]
    rcases hd : env.deleteResult m with _ | de <;> simp [hd]
  · cases hi : isInvalidMessageError e
    · rw [workerEvents_transient env m e hh hi]; simp
    · rw [workerEvents_invalid env m e hh hi]
      rcases hd : env.deleteResult m with _ | de <;> simp [hd]

/-- `Start`'s entry state satisfies the invariant. -/
lemma good_start (env : Env) (script : List ReceiveResult) :
    GoodState env (startState script) :=
  ⟨by simp [startState], by simp [startState], by simp [startState]⟩

/-- The invariant is preserved by every enabled step. -/
lemma good_step (env : Env) (c : Choice) (s s' : SState)
    (good : GoodState env s) (hstep : step env c s = some s') :
    GoodState env s' := by
  obtain ⟨g1, g2, g3⟩ := good
  rcases s with ⟨cd, ph, rn, sc, tr⟩
  cases c with
  | cancelSignal =>
    simp only [step, Option.some.injEq] at hstep
    subst hstep
    exact ⟨g1, g2, g3⟩
  | loopIter =>
    cases ph with
    | polling =>
      cases cd with
      | true =>
        simp only [step, if_true, Option.some.injEq] at hstep
        subst hstep
        refine ⟨?_, ?_, ?_⟩
        · intro a b h
          simp only [List.mem_append, List.mem_singleton] at h
          rcases h with h | h
          · exact g1 a b h
          · cases h
        · intro pending hp
          simp at hp
        · simp at g3 ⊢
          omega
      | false =>
        cases sc with
        | nil => simp [step] at hstep
        | cons r rest =>
          cases r with
          | err e =>
            simp only [step] at hstep
            rw [if_neg (by simp)] at hstep
            rw [Option.some.injEq] at hstep
            subst hstep
            refine ⟨?_, g2, g3⟩
            intro a b h
            simp only [List.mem_append, List.mem_cons,
              List.not_mem_nil, or_false] at h
            rcases h with h | h | h
            · exact g1 a b h
            · cases h; exact ⟨rfl, rfl⟩
            · cases h
          | msgs l =>
            cases hl : l.isEmpty with
            | true =>
              simp only [step, hl, if_true] at hstep
              rw [if_neg (by simp)] at hstep
              rw [Option.some.injEq] at hstep
              subst hstep
              refine ⟨?_, g2, g3⟩
              intro a b h
              simp only [List.mem_append, List.mem_singleton] at h
              rcases h with h | h
              · exact g1 a b h
              · cases h; exact ⟨rfl, rfl⟩
            | false =>
              simp only [step, hl] at hstep
              rw [if_neg (by simp), if_neg (by simp)] at hstep
              rw [Option.some.injEq] at hstep
              subst hstep
              refine ⟨?_, ?_, g3⟩
              · intro a b h
                simp only [List.mem_append, List.mem_singleton] at h
                rcases h with h | h
                · exact g1 a b h
                · cases h; exact ⟨rfl, rfl⟩
              · intro pending hp
                simp only [Phase.dispatching.injEq] at hp
                subst hp
                intro p hp a b
                simp only [List.mem_map] at hp
                obtain ⟨m, _, rfl⟩ := hp
                exact workerEvents_no_receive env m a b
    | dispatching pending0 => simp [step] at hstep
    | stopped => simp [step] at hstep
  | workerStep i =>
    cases ph with
    | polling => simp [step] at hstep
    | stopped => simp [step] at hstep
    | dispatching pending0 =>
      rcases hi : pending0[i]? with _ | ⟨m, evs⟩
      · simp only [step, hi] at hstep
        exact Option.noConfusion hstep
      · cases evs with
        | nil =>
          simp only [step, hi] at hstep
          exact Option.noConfusion hstep
        | cons e restE =>
          simp only [step, hi, Option.some.injEq] at hstep
          subst hstep
          have hmem : (m, e :: restE) ∈ pending0 := List.getElem?_mem hi
          have hnor : ∀ a b, Event.receiveCall a b ∉ e :: restE :=
            fun a b => g2 pending0 rfl (m, e :: restE) hmem a b
          refine ⟨?_, ?_, g3⟩
          · intro a b h
            simp only [List.mem_append, List.mem_singleton] at h
            rcases h with h | h
            · exact g1 a b h
            · exact absurd (h ▸ List.mem_cons_self e restE) (h ▸ hnor a b)
          · intro pending hp
            simp only [Phase.dispatching.injEq] at hp
            subst hp
            intro p hp a b
            rcases List.mem_or_eq_of_mem_set hp with hp | hp
            · exact g2 pending0 rfl p hp a b
            · subst hp
              intro hc
              exact hnor a b (List.mem_cons_of_mem e hc)
  | joinBatch =>
    cases ph with
    | polling => simp [step] at hstep
    | stopped => simp [step] at hstep
    | dispatching pending0 =>
      cases hall : pending0.all (fun p => p.2.isEmpty) with
      | false =>
        simp only [step, hall] at hstep
        rw [if_neg (by simp)] at hstep
        exact Option.noConfusion hstep
      | true =>
        simp only [step, hall, if_true, Option.some.injEq] at hstep
        subst hstep
        refine ⟨g1, ?_, g3⟩
        intro pending hp
        simp at hp

/-- The invariant transports along any run of the scheduler. -/
lemma good_steps (env : Env) (cs : List Choice) (s0 s : SState)
    (good : GoodState env s0) (h : steps env cs s0 = some s) :
    GoodState env s := by
  induction cs generalizing s0 with
  | nil =>
    simp only [steps, Option.some.injEq] at h
    exact h ▸ good
  | cons c rest ih =>
    simp only [steps] at h
    rcases hs : step env c s0 with _ | s1
    · rw [hs] at h; cases h
    · rw [hs] at h
      exact ih s1 (good_step env c s0 s1 good hs) h

/-- Every state reachable from `Start`'s entry satisfies the invariant. -/
lemma reachable_good (env : Env) (cs : List Choice) (script : List ReceiveResult)
    (s : SState) (h : steps env cs (startState script) = some s) :
    GoodState env s :=
  good_steps env cs (startState script) s (good_start env script) h

/-- From a dispatching state, every enabled step either stays dispatching or
is the join with every worker finished, landing back in `polling`. -/
lemma step_from_dispatching (env : Env) (c : Choice) (s s' : SState)
    (pending : List (Message × List Event))
    (hp : s.phase = .dispatching pending) (hstep : step env c s = some s') :
    (∃ p', s'.phase = .dispatching p')
    ∨ (s'.phase = .polling ∧ pending.all (fun p => p.2.isEmpty) = true) := by
  rcases s with ⟨cd, ph, rn, sc, tr⟩
  simp only at hp
  subst hp
  cases c with
  | cancelSignal =>
    simp only [step, Option.some.injEq] at hstep
    subst hstep
    exact Or.inl ⟨pending, rfl⟩
  | loopIter => simp [step] at hstep
  | workerStep i =>
    rcases hi : pending[i]? with _ | ⟨m, evs⟩
    · simp only [step, hi] at hstep
      exact Option.noConfusion hstep
    · cases evs with
      | nil =>
        simp only [step, hi] at hstep
        exact Option.noConfusion hstep
      | cons e restE =>
        simp only [step, hi, Option.some.injEq] at hstep
        subst hstep
        exact Or.inl ⟨_, rfl⟩
  | joinBatch =>
    cases hall : pending.all (fun p => p.2.isEmpty) with
    | false =>
      simp only [step, hall] at hstep
      rw [if_neg (by simp)] at hstep
      exact Option.noConfusion hstep
    | true =>
      simp only [step, hall, if_true, Option.some.injEq] at hstep
      subst hstep
      exact Or.inr ⟨rfl, rfl⟩

/-- The `Running` counter decreases only when the poll loop returns: from
the `polling` phase, with the cancellation token observed. -/
lemma running_decrease (env : Env) (c : Choice) (s s' : SState)
    (hstep : step env c s = some s') (hlt : s'.running < s.running) :
    s.phase = .polling ∧ s.ctxDone = true ∧ s'.phase = .stopped := by
  rcases s with ⟨cd, ph, rn, sc, tr⟩
  cases c with
  | cancelSignal =>
    simp only [step, Option.some.injEq] at hstep
    subst hstep
    exact absurd hlt (by simp)
  | loopIter =>
    cases ph with
    | dispatching pending0 => simp [step] at hstep
    | stopped => simp [step] at hstep
    | polling =>
      cases cd with
      | true =>
        simp only [step, if_true, Option.some.injEq] at hstep
        subst hstep
        exact ⟨rfl, rfl, rfl⟩
      | false =>
        cases sc with
        | nil => simp [step] at hstep
        | cons r rest =>
          cases r with
          | err e =>
            simp only [step] at hstep
            rw [if_neg (by simp), Option.some.injEq] at hstep
            subst hstep
            exact absurd hlt (by simp)
          | msgs l =>
            cases hl : l.isEmpty with
            | true =>
              simp only [step, hl, if_true] at hstep
              rw [if_neg (by simp), Option.some.injEq] at hstep
              subst hstep
              exact absurd hlt (by simp)
            | false =>
              simp only [step, hl] at hstep
              rw [if_neg (by simp), if_neg (by simp), Option.some.injEq] at hstep
              subst hstep
              exact absurd hlt (by simp)
  | workerStep i =>
    cases ph with
    | polling => simp [step] at hstep
    | stopped => simp [step] at hstep
    | dispatching pending0 =>
      rcases hi : pending0[i]? with _ | ⟨m, evs⟩
      · simp only [step, hi] at hstep
        exact Option.noConfusion hstep
      · cases evs with
        | nil =>
          simp only [step, hi] at hstep
          exact Option.noConfusion hstep
        | cons e restE =>
          simp only [step, hi, Option.some.injEq] at hstep
          subst hstep
          exact absurd hlt (by simp)
  | joinBatch =>
    cases ph with
    | polling => simp [step] at hstep
    | stopped => simp [step] at hstep
    | dispatching pending0 =>
      cases hall : pending0.all (fun p => p.2.isEmpty) with
      | false =>
        simp only [step, hall] at hstep
        rw [if_neg (by simp)] at hstep
        exact Option.noConfusion hstep
      | true =>
        simp only [step, hall, if_true, Option.some.injEq] at hstep
        subst hstep
        exact absurd hlt (by simp)

/-- Witness for C10: a concrete pointer-typed invalid-message error is
classified as transient. -/
theorem invalid_message_exact_type_witness :
    envTrans.handler msgA = some (GoError.other "boom")
    ∧ (∀ a b, isInvalidMessageError (GoError.ptrInvalidMessage a b) = false)
    ∧ (isInvalidMessageError (GoError.other "boom") = true ↔
        ∃ a b, GoError.other "boom" = GoError.invalidMessage a b) :=
  ⟨rfl,
    (invalid_message_exact_type envTrans msgA (GoError.other "boom") rfl).2.1,
    (invalid_message_exact_type envTrans msgA (GoError.other "boom") rfl).1⟩

/-! ### C4: one worker per message, strict batch sequencing -/

/-- C4: from any reachable state, dispatching a received non-empty batch of
k messages spawns exactly one worker per message (k workers); the
dispatcher's join is enabled exactly when every worker has emitted all its
events; the poll loop itself is disabled (its step is `none`) whenever a
batch is dispatching; and every enabled step from a dispatching state
leaves the sublist of receive calls in the trace exactly unchanged — so the
next receive can only be issued after the join has returned the service to
the `polling` phase. -/
theorem batch_dispatch_and_sequencing (env : Env) (cs : List Choice)
    (script : List ReceiveResult) (s : SState)
    (hreach : steps env cs (startState script) = some s) :
    (∀ l rest s', s.phase = .polling → s.ctxDone = false →
      s.script = ReceiveResult.msgs l :: rest → l.isEmpty = false →
      step env .loopIter s = some s' →
      s'.phase = .dispatching (l.map (fun m => (m, workerEvents env m)))
        ∧ (l.map (fun m => (m, workerEvents env m))).length = l.length)
    ∧ (∀ pending, s.phase = .dispatching pending →
        ((step env .joinBatch s).isSome ↔
          pending.all (fun p => p.2.isEmpty) = true))
    ∧ (∀ pending, s.phase = .dispatching pending →
        step env .loopIter s = none)
    ∧ (∀ pending, s.phase = .dispatching pending →
        ∀ c s', step env c s = some s' →
          s'.trace.filter Event.isReceive = s.trace.filter Event.isReceive) := by
  obtain ⟨g1, g2, g3⟩ := reachable_good env cs script s hreach
  rcases s with ⟨cd, ph, rn, sc, tr⟩
  refine ⟨?_, ?_, ?_, ?_⟩
  · intro l rest s' hp hc hs hl hstep
    simp only at hp hc hs
    subst hp; subst hc; subst hs
    simp only [step, hl] at hstep
    rw [if_neg (by simp), if_neg (by simp), Option.some.injEq] at hstep
    subst hstep
    exact ⟨rfl, by simp⟩
  · intro pending hp
    simp only at hp
    subst hp
    cases hall : pending.all (fun p => p.2.isEmpty) with
    | true => simp [step, hall]
    | false =>
      simp only [step, hall]
      rw [if_neg (by simp)]
      simp
  · intro pending hp
    simp only at hp
    subst hp
    simp [step]
  · intro pending hp c s' hstep
    simp only at hp
    subst hp
    cases c with
    | cancelSignal =>
      simp only [step, Option.some.injEq] at hstep
      subst hstep
      rfl
    | loopIter => simp [step] at hstep
    | workerStep i =>
      rcases hi : pending[i]? with _ | ⟨m, evs⟩
      · simp only [step, hi] at hstep
        exact Option.noConfusion hstep
      · cases evs with
        | nil =>
          simp only [step, hi] at hstep
          exact Option.noConfusion hstep
        | cons e restE =>
          simp only [step, hi, Option.some.injEq] at hstep
          subst hstep
          have hmemP : (m, e :: restE) ∈ pending := List.getElem?_mem hi
          have hne : ∀ a b, e ≠ Event.receiveCall a b := by
            intro a b hcontra
            have hno := g2 pending rfl (m, e :: restE) hmemP a b
            rw [hcontra] at hno
            exact hno (List.mem_cons_self _ _)
          have hre : e.isReceive = false := by
            cases e <;> first | rfl | exact absurd rfl (hne _ _)
          simp [List.filter_append, hre]
    | joinBatch =>
      cases hall : pending.all (fun p => p.2.isEmpty) with
      | false =>
        simp only [step, hall] at hstep
        rw [if_neg (by simp)] at hstep
        exact Option.noConfusion hstep
      | true =>
        simp only [step, hall, if_true, Option.some.injEq] at hstep
        subst hstep
        rfl

/-- Witness for C4: the concrete two-message batch spawns two workers, and
at the resulting dispatching state the poll loop's step is disabled. -/
theorem batch_dispatch_and_sequencing_witness :
    step envOk .loopIter (startState [ReceiveResult.msgs [msgA, msgB]]) =
      some dispatchStateTwo
    ∧ dispatchStateTwo.phase =
        .dispatching ([msgA, msgB].map (fun m => (m, workerEvents envOk m)))
    ∧ ([msgA, msgB].map (fun m => (m, workerEvents envOk m))).length = 2
    ∧ step envOk .loopIter dispatchStateTwo = none := by
  have h :=
    (batch_dispatch_and_sequencing envOk [] [ReceiveResult.msgs [msgA, msgB]]
      (startState [ReceiveResult.msgs [msgA, msgB]]) rfl).1
      [msgA, msgB] [] dispatchStateTwo rfl rfl rfl rfl rfl
  have hdisabled :=
    (batch_dispatch_and_sequencing envOk [Choice.loopIter]
      [ReceiveResult.msgs [msgA, msgB]] dispatchStateTwo rfl).2.2.1
      ([msgA, msgB].map (fun m => (m, workerEvents envOk m))) rfl
  exact ⟨rfl, h.1, h.2, hdisabled⟩

/-! ### C5: what Stop() actually waits on -/

/-- C5 counterexample: at `Start`'s entry — a concrete state whose empty
trace shows that no batch has been dispatched — the counter read by
`Stop()` is already 1, not 0; and the step that begins a dispatch leaves it
at 1. So the counter is not incremented before each dispatch, and `Stop()`
with no batch in flight faces a nonzero counter (it must wait for the loop
to exit rather than return immediately). -/
theorem running_counter_counterexample :
    (startState [ReceiveResult.msgs [msgA]]).running = 1
    ∧ (startState [ReceiveResult.msgs [msgA]]).trace = []
    ∧ (startState [ReceiveResult.msgs [msgA]]).phase = Phase.polling
    ∧ step envOk .loopIter (startState [ReceiveResult.msgs [msgA]]) =
        some dispatchStateOne
    ∧ dispatchStateOne.phase =
        Phase.dispatching [(msgA, workerEvents envOk msgA)]
    ∧ dispatchStateOne.running = 1 :=
  ⟨rfl, rfl, rfl, rfl, rfl, rfl⟩

/-- C5 (amended): `Stop()` signals the cancellation token and then blocks
until the `Running` counter reaches zero, but that counter counts the
running `Start` loop — incremented once at `Start` entry and decremented
when `Start` returns — not in-flight batches. Consequently, on every
reachable state: the counter is zero exactly when the poll loop has
returned; it decreases only at loop exit, which happens only from the
`polling` phase with the cancellation token observed — hence only after any
in-flight batch has fully joined; while a batch is dispatched the counter
is 1, so `Stop()` called mid-batch blocks until that batch's workers
(including their acknowledgment calls) all finish and the loop exits; and
from a dispatching state the only way back to `polling` is the join with
every worker finished. -/
theorem stop_waits_for_loop_exit (env : Env) (cs : List Choice)
    (script : List ReceiveResult) (s : SState)
    (hreach : steps env cs (startState script) = some s) :
    (s.running = 0 ↔ s.phase = .stopped)
    ∧ (∀ c s', step env c s = some s' → s'.running < s.running →
        s.phase = .polling ∧ s.ctxDone = true ∧ s'.phase = .stopped)
    ∧ (∀ pending, s.phase = .dispatching pending → s.running = 1)
    ∧ (∀ pending c s', s.phase = .dispatching pending →
        step env c s = some s' →
        (∃ p', s'.phase = .dispatching p')
        ∨ (s'.phase = .polling ∧ pending.all (fun p => p.2.isEmpty) = true)) := by
  obtain ⟨g1, g2, g3⟩ := reachable_good env cs script s hreach
  refine ⟨?_, ?_, ?_, ?_⟩
  · rw [g3]
    cases hph : s.phase <;> simp
  · exact fun c s' h1 h2 => running_decrease env c s s' h1 h2
  · intro pending hp
    rw [g3, hp]
    simp
  · exact fun pending c s' hp hstep =>
      step_from_dispatching env c s s' pending hp hstep

/-- Witness for C5 (amended): at the concrete mid-batch state the counter
is 1, so `Stop()`'s wait is not satisfied. -/
theorem stop_waits_for_loop_exit_witness :
    steps envOk [Choice.loopIter] (startState [ReceiveResult.msgs [msgA]]) =
      some dispatchStateOne
    ∧ dispatchStateOne.running = 1 :=
  ⟨rfl,
    (stop_waits_for_loop_exit envOk [Choice.loopIter]
      [ReceiveResult.msgs [msgA]] dispatchStateOne rfl).2.2.1
      [(msgA, workerEvents envOk msgA)] rfl⟩

/-! ### C6: the poll loop survives receive errors -/

/-- C6: a receive error never terminates the poll loop: the error is
logged and the loop is immediately back at its next iteration, still
polling, with no other state change; no step from such a state can reach
`stopped`; and in general the loop returns (`stopped`) only when the
cancellation token has been observed, never from a receive outcome. -/
theorem poll_loop_survives_receive_error (env : Env) (s : SState) (e : GoError)
    (rest : List ReceiveResult) (hp : s.phase = .polling)
    (hc : s.ctxDone = false) (hs : s.script = ReceiveResult.err e :: rest) :
    (step env .loopIter s = some { s with
        script := rest
        trace := s.trace ++
          [Event.receiveCall env.maxNumberOfMessage env.waitTimeSecond,
           Event.logLine e.errorString] })
    ∧ (∀ c s', step env c s = some s' → s'.phase ≠ .stopped)
    ∧ (∀ t t' : SState, step env .loopIter t = some t' →
        t'.phase = .stopped → t.ctxDone = true ∧ t.phase = .polling) := by
  rcases s with ⟨cd, ph, rn, sc, tr⟩
  simp only at hp hc hs
  subst hp; subst hc; subst hs
  refine ⟨?_, ?_, ?_⟩
  · simp only [step]
    rw [if_neg (by simp)]
  · intro c s' hstep
    cases c with
    | cancelSignal =>
      simp only [step, Option.some.injEq] at hstep
      subst hstep
      simp
    | loopIter =>
      simp only [step] at hstep
      rw [if_neg (by simp), Option.some.injEq] at hstep
      subst hstep
      simp
    | workerStep i => simp [step] at hstep
    | joinBatch => simp [step] at hstep
  · intro t t' hstep hstopped
    rcases t with ⟨cd2, ph2, rn2, sc2, tr2⟩
    cases ph2 with
    | dispatching p2 => simp [step] at hstep
    | stopped => simp [step] at hstep
    | polling =>
      cases cd2 with
      | true => exact ⟨rfl, rfl⟩
      | false =>
        cases sc2 with
        | nil => simp [step] at hstep
        | cons r2 rest2 =>
          cases r2 with
          | err e2 =>
            simp only [step] at hstep
            rw [if_neg (by simp), Option.some.injEq] at hstep
            subst hstep
            simp at hstopped
          | msgs l2 =>
            cases hl2 : l2.isEmpty with
            | true =>
              simp only [step, hl2, if_true] at hstep
              rw [if_neg (by simp), Option.some.injEq] at hstep
              subst hstep
              simp at hstopped
            | false =>
              simp only [step, hl2] at hstep
              rw [if_neg (by simp), if_neg (by simp),
                Option.some.injEq] at hstep
              subst hstep
              simp at hstopped

/-- Witness for C6: a concrete transport error is logged and the loop
stays in `polling`. -/
theorem poll_loop_survives_receive_error_witness :
    step envOk .loopIter (startState [ReceiveResult.err (GoError.other "netfail")]) =
      some { startState [ReceiveResult.err (GoError.other "netfail")] with
        script := []
        trace := (startState [ReceiveResult.err (GoError.other "netfail")]).trace ++
          [Event.receiveCall envOk.maxNumberOfMessage envOk.waitTimeSecond,
           Event.logLine (GoError.other "netfail").errorString] } :=
  (poll_loop_survives_receive_error envOk
    (startState [ReceiveResult.err (GoError.other "netfail")])
    (GoError.other "netfail") [] rfl rfl rfl).1

/-! ### C7: construction resolves the queue exactly once, fail-fast -/

/-- C7: `NewService` issues exactly one `GetQueueUrl` call; when resolution
fails the same error is returned and no service value is produced; when it
succeeds the returned service carries the resolved URL (with a fresh
uncancelled context and a zero `Running` counter). -/
theorem newService_resolves_once (resolve : String → Except GoError String)
    (n : String) :
    ((NewService resolve n).1.filter Event.isGetQueueUrl).length = 1
    ∧ (∀ e, resolve n = .error e → (NewService resolve n).2 = .error e)
    ∧ (∀ url, resolve n = .ok url →
        (NewService resolve n).2 =
          .ok { jobSQSURL := url, ctxDone := false, running := 0 }) := by
  rcases hr : resolve n with e | url
  · refine ⟨?_, ?_, ?_⟩
    · simp [NewService, hr, Event.isGetQueueUrl]
    · intro e' he'
      simp only [Except.error.injEq] at he'
      subst he'
      simp [NewService, hr]
    · intro url hu
      exact absurd hu (by simp)
  · refine ⟨?_, ?_, ?_⟩
    · simp [NewService, hr, Event.isGetQueueUrl]
    · intro e' he'
      exact absurd he' (by simp)
    · intro url' hu
      simp only [Except.ok.injEq] at hu
      subst hu
      simp [NewService, hr]

/-- Witness for C7: a concrete successful resolution stores the URL. -/
theorem newService_resolves_once_witness :
    ((NewService resolveOk "jobs").1.filter Event.isGetQueueUrl).length = 1
    ∧ (NewService resolveOk "jobs").2 =
        Except.ok { jobSQSURL := "https://sqs.example/jobs",
                    ctxDone := false, running := 0 } :=
  ⟨(newService_resolves_once resolveOk "jobs").1,
   (newService_resolves_once resolveOk "jobs").2.2 "https://sqs.example/jobs" rfl⟩

/-! ### C9: receive parameters come from the mutable config variables -/

/-- C9 counterexample: with the exported variable `MaxNumberOfMessage` set
to 11 — the code never validates the 1..10 range — the poll loop's receive
call carries batch size 11, outside 1..10, refuting the claim that every
receive call uses a batch size within 1..10. -/
theorem receive_range_counterexample :
    step envWide .loopIter (startState [ReceiveResult.msgs []]) = some wideStateOne
    ∧ Event.receiveCall 11 20 ∈ wideStateOne.trace
    ∧ ¬(1 ≤ (11 : Int) ∧ (11 : Int) ≤ 10) :=
  ⟨rfl, by simp [wideStateOne], by decide⟩

/-- C9 (amended): every receive call issued by the poll loop carries
exactly the current values of the exported variables `MaxNumberOfMessage`
and `WaitTimeSecond`, with no range validation; their initial (default)
values are 10 and 20, which lie within 1..10 and 0..20, so under the
default configuration every receive call of every reachable execution is
within the documented bounds. -/
theorem receive_uses_configured_values (env : Env) (cs : List Choice)
    (script : List ReceiveResult) (s : SState)
    (hreach : steps env cs (startState script) = some s) :
    (∀ a b, Event.receiveCall a b ∈ s.trace →
      a = env.maxNumberOfMessage ∧ b = env.waitTimeSecond)
    ∧ MaxNumberOfMessage = 10 ∧ WaitTimeSecond = 20
    ∧ (env.maxNumberOfMessage = MaxNumberOfMessage →
        env.waitTimeSecond = WaitTimeSecond →
        ∀ a b, Event.receiveCall a b ∈ s.trace →
          1 ≤ a ∧ a ≤ 10 ∧ 0 ≤ b ∧ b ≤ 20) := by
  obtain ⟨g1, g2, g3⟩ := reachable_good env cs script s hreach
  refine ⟨g1, rfl, rfl, ?_⟩
  intro hm hw a b hmem
  obtain ⟨ha, hb⟩ := g1 a b hmem
  subst ha; subst hb
  rw [hm, hw]
  exact ⟨by decide, by decide, by decide, by decide⟩

/-- Witness for C9 (amended): under the default configuration the first
receive call is within bounds. -/
theorem receive_uses_configured_values_witness :
    steps envOk [Choice.loopIter] (startState [ReceiveResult.msgs []]) =
      some okStateOne
    ∧ ∀ a b, Event.receiveCall a b ∈ okStateOne.trace →
        1 ≤ a ∧ a ≤ 10 ∧ 0 ≤ b ∧ b ≤ 20 :=
  ⟨rfl,
    (receive_uses_configured_values envOk [Choice.loopIter]
      [ReceiveResult.msgs []] okStateOne rfl).2.2.2 rfl rfl⟩

end SqsWorker
